import Mathlib

/-!
Verification development for the ithome-ironman-backup crawler
(`crawl_from_rss.py`, `crawl_from.rss.py`, `process_images.py`).

Strings are shallowly embedded as `List Char` (Python `str` is a sequence of
Unicode code points, as is a Lean `List Char`).  File systems are embedded as
association lists from file names to contents; the network (Playwright page
loads, httpx downloads) is embedded as explicit oracle functions passed to the
embedded operations; `uuid.uuid4()` is embedded as a fresh-name supply
`Nat → List Char` consulted at an explicit counter.  Fallible parsing
(`xml.etree.ElementTree.fromstring`) is embedded as an `Except` value.
All recursive scanning functions take explicit fuel equal to the input length,
so every definition is a structurally recursive computable function.
-/

/-! ## Name sanitizer (`crawl_from_rss.py`, `sanitize_filename`, lines 24-39) -/

/-- Characters matched by the regex class `[<>:"/\\|?*\x00-\x1f]`
(`crawl_from_rss.py` line 30): the nine characters illegal in Windows/Unix
path segments plus the C0 control characters U+0000..U+001F. -/
def isInvalidChar (c : Char) : Bool :=
  c = '<' || c = '>' || c = ':' || c = '\"' || c = '/' || c = '\\' ||
  c = '|' || c = '?' || c = '*' || c.toNat ≤ 31

/-- The character set stripped by Python `str.strip()` with no argument:
exactly the characters for which `str.isspace()` holds (CPython's
whitespace table). -/
def pyIsSpace (c : Char) : Bool :=
  let n := c.toNat
  (9 ≤ n && n ≤ 13) || (28 ≤ n && n ≤ 31) || n = 32 || n = 133 || n = 160 ||
  n = 5760 || (8192 ≤ n && n ≤ 8202) || n = 8232 || n = 8233 || n = 8239 ||
  n = 8287 || n = 12288

/-- Python `s.strip(chars)`: remove the longest run of characters satisfying
`p` from the front and from the back of the string. -/
def pyStrip (p : Char → Bool) (s : List Char) : List Char :=
  ((s.dropWhile p).reverse.dropWhile p).reverse

/-- Fuel-driven body of `re.sub(r"_+", "_", s)` (`crawl_from_rss.py` line 35):
every maximal run of underscores is replaced by a single underscore.  The fuel
is always instantiated with the length of the string, which suffices because
each step consumes at least one character. -/
def collapseGo : Nat → List Char → List Char
  | 0, s => s
  | _ + 1, [] => []
  | fuel + 1, c :: cs =>
    if c = '_' then '_' :: collapseGo fuel (cs.dropWhile (fun d => d = '_'))
    else c :: collapseGo fuel cs

/-- `re.sub(r"_+", "_", s)`. -/
def collapseUnderscores (s : List Char) : List Char :=
  collapseGo s.length s

/-- `sanitize_filename` (`crawl_from_rss.py` lines 24-39): replace the illegal
characters by `_`, apply `.strip().strip(".")`, collapse runs of underscores,
and truncate to 200 characters if longer. -/
def sanitize_filename (title : List Char) : List Char :=
  let f := title.map (fun c => if isInvalidChar c then '_' else c)
  let f := pyStrip (fun c => c = '.') (pyStrip pyIsSpace f)
  let f := collapseUnderscores f
  if 200 < f.length then f.take 200 else f

/-- `true` when the string contains no two consecutive underscores. -/
def noDoubleUnderscore : List Char → Bool
  | c1 :: c2 :: rest => !(c1 = '_' && c2 = '_') && noDoubleUnderscore (c2 :: rest)
  | _ => true

/-- The value of `filename` in `sanitize_filename` just before the length
truncation (`crawl_from_rss.py` lines 30-35). -/
def sanitizeCore (t : List Char) : List Char :=
  collapseUnderscores (pyStrip (fun c => c = '.')
    (pyStrip pyIsSpace (t.map (fun c => if isInvalidChar c then '_' else c))))

example : sanitize_filename "Day 1: Hello".toList = "Day 1_ Hello".toList := by decide
example : sanitize_filename "<a .".toList = "_a ".toList := by decide
example : sanitize_filename ".".toList = [] := by decide

/-! ## URL path extraction and image extensions
(`crawl_from_rss.py`, `get_image_extension`, lines 417-438)

`urllib.parse.urlparse(url).path` is embedded in CPython's two stages.
`urlsplit`: left-strip WHATWG C0-control-or-space characters, remove every
tab/CR/LF, split off a well-formed scheme (lower-cased), split off a
`//`-introduced netloc (up to the first `/`, `?` or `#`), drop the fragment
after the first `#`, and drop the query after the first `?`.  `urlparse` then
additionally splits `;params` off the last path segment when the scheme is in
`uses_params` (which contains `http`, `https` and the empty scheme).
CPython's IPv6-bracket and netloc validation errors are not modelled (they
concern only `ValueError`s on malformed authorities, which no claim
mentions). -/

/-- WHATWG "C0 control or space": code points U+0000..U+0020. -/
def isC0OrSpace (c : Char) : Bool := c.toNat ≤ 32

/-- The bytes CPython's `urlsplit` removes from anywhere in the URL. -/
def isUnsafeUrlByte (c : Char) : Bool := c = '\t' || c = '\r' || c = '\n'

/-- CPython `scheme_chars`: ASCII letters, digits, `+`, `-`, `.`. -/
def isSchemeChar (c : Char) : Bool :=
  c.isAlpha || c.isDigit || c = '+' || c = '-' || c = '.'

/-- Scheme splitting of `urlsplit`: if the text before the first `:` is a
non-empty ASCII-letter-led run of scheme characters, return the lower-cased
scheme and the text after the colon; otherwise the empty scheme and the
unchanged URL. -/
def splitScheme (url : List Char) : List Char × List Char :=
  match url.dropWhile (fun c => !(c = ':')) with
  | ':' :: rest =>
    match url.takeWhile (fun c => !(c = ':')) with
    | [] => ([], url)
    | c :: cs =>
      if c.isAlpha && cs.all isSchemeChar then ((c :: cs).map Char.toLower, rest)
      else ([], url)
  | _ => ([], url)

/-- Netloc splitting of `urlsplit`: if the remaining URL starts with `//`,
drop the authority, i.e. everything up to the next `/`, `?` or `#`. -/
def splitNetloc : List Char → List Char
  | '/' :: '/' :: rest =>
    rest.dropWhile (fun c => !(c = '/') && !(c = '?') && !(c = '#'))
  | url => url

/-- CPython `uses_params`: the schemes for which `urlparse` splits `;params`
off the last path segment. -/
def uses_params : List (List Char) :=
  [[], "ftp".toList, "hdl".toList, "prospero".toList, "http".toList,
   "imap".toList, "https".toList, "ftps".toList, "rtsp".toList,
   "rtspu".toList, "sip".toList, "sips".toList, "mms".toList,
   "sftp".toList, "tel".toList]

/-- CPython `_splitparams` applied to a path known to contain `;`: when the
path has a `/`, truncate at the first `;` at or after the last `/` (keeping
the path unchanged when the last segment has no `;`); otherwise truncate at
the first `;`. -/
def splitparams (path : List Char) : List Char :=
  if '/' ∈ path then
    let lastSeg := (path.reverse.takeWhile (fun c => !(c = '/'))).reverse
    if ';' ∈ lastSeg then
      (path.reverse.dropWhile (fun c => !(c = '/'))).reverse
        ++ lastSeg.takeWhile (fun c => !(c = ';'))
    else path
  else path.takeWhile (fun c => !(c = ';'))

/-- The (lower-cased) scheme and the `path` component computed by CPython's
`urlsplit`. -/
def urlsplit_path (url : List Char) : List Char × List Char :=
  let u := url.dropWhile isC0OrSpace
  let u := u.filter (fun c => !isUnsafeUrlByte c)
  let sp := splitScheme u
  let u := splitNetloc sp.2
  let u := u.takeWhile (fun c => !(c = '#'))
  (sp.1, u.takeWhile (fun c => !(c = '?')))

/-- The `path` component of `urllib.parse.urlparse(url)`: the `urlsplit`
path, with `;params` split off the last segment when the scheme is in
`uses_params` and the path contains a `;`. -/
def urlparse_path (url : List Char) : List Char :=
  let sp := urlsplit_path url
  if sp.1 ∈ uses_params ∧ ';' ∈ sp.2 then splitparams sp.2 else sp.2

/-- The extension whitelist of `get_image_extension`
(`crawl_from_rss.py` lines 432-433), in source order. -/
def imageExtensions : List (List Char) :=
  [".png".toList, ".jpg".toList, ".jpeg".toList, ".gif".toList,
   ".webp".toList, ".svg".toList, ".bmp".toList, ".ico".toList]

/-- The default extension `".png"` of `get_image_extension`. -/
def pngExt : List Char := ".png".toList

/-- The `for ext in extensions: if path.endswith(ext): return ext` loop:
first whitelisted extension that is a suffix of the path. -/
def firstExtMatch (path : List Char) : List (List Char) → Option (List Char)
  | [] => none
  | e :: es => if e.isSuffixOf path then some e else firstExtMatch path es

/-- `get_image_extension` (`crawl_from_rss.py` lines 417-438): lower-case the
URL's path component (`Char.toLower` is the ASCII lowering that Python's
`str.lower` performs on ASCII text) and return the first whitelisted suffix,
or the default when none matches. -/
def get_image_extension (url : List Char) (dflt : List Char) : List Char :=
  let path := (urlparse_path url).map Char.toLower
  (firstExtMatch path imageExtensions).getD dflt

example : get_image_extension "https://i.imgur.com/x.PNG?size=2".toList pngExt
    = ".png".toList := by decide
example : get_image_extension "https://a.b/c".toList pngExt = ".png".toList := by
  decide
example : get_image_extension "https://a.b/c.JpEg".toList pngExt
    = ".jpeg".toList := by decide
example : get_image_extension "https://h/x.jpg;y.png".toList pngExt
    = ".jpg".toList := by decide
example : get_image_extension "https://h/a;b/c.gif".toList pngExt
    = ".gif".toList := by decide

/-! ## Feed parsing
(`crawl_from_rss.py`, `fetch_rss_content_async`, lines 125-196)

The XML tree handed back by `xml.etree.ElementTree.fromstring` is embedded
structurally: an element's `.text` is an `Option` (Python `None` when the
element is empty), `find` results are `Option`s, and a parse failure
(`ET.ParseError`) is the `Except.error` case of the parse outcome that the
function receives.  The HTTP transport (Playwright request context) and the
series-title cleaning regex of lines 172-173 are outside every claim and are
not modelled; the articles list construction of lines 176-187 is modelled
verbatim. -/

/-- An XML element as far as the crawler looks at it: its `.text`. -/
structure XmlElem where
  text : Option (List Char)
deriving DecidableEq

/-- An RSS `<item>`: the `find("title")` and `find("link")` results. -/
structure RssItem where
  titleElem : Option XmlElem
  linkElem : Option XmlElem
deriving DecidableEq

/-- An RSS `<channel>`: its items in document order. -/
structure RssChannel where
  items : List RssItem
deriving DecidableEq

/-- A parsed RSS document: the `root.find("channel")` result. -/
structure RssDoc where
  channel : Option RssChannel
deriving DecidableEq

/-- An entry of the `articles` list built by the item loop: both fields can
be Python `None` (element present but empty). -/
structure Article where
  title : Option (List Char)
  link : Option (List Char)
deriving DecidableEq

/-- The body of the `for item in channel.findall("item")` loop
(`crawl_from_rss.py` lines 176-187): default the title to `"Untitled"` when
the title element is absent, default the link to `""` when the link element
is absent, and truncate a truthy link at the first `?`
(`link.split("?")[0]`). -/
def parse_rss_item (it : RssItem) : Article :=
  let title : Option (List Char) :=
    match it.titleElem with
    | some e => e.text
    | none => some "Untitled".toList
  let link : Option (List Char) :=
    match it.linkElem with
    | some e => e.text
    | none => some []
  let link : Option (List Char) :=
    match link with
    | some l => if l = [] then some l else some (l.takeWhile (fun c => !(c = '?')))
    | none => none
  ⟨title, link⟩

/-- The article list produced by `fetch_rss_content_async` from the XML parse
outcome: a `ParseError` is caught and yields `[]` (lines 154-159), a missing
`channel` element yields `[]` (lines 162-165), and otherwise one article per
item in document order (lines 176-187). -/
def fetch_rss_articles (parsed : Except Unit RssDoc) : List Article :=
  match parsed with
  | .error _ => []
  | .ok root =>
    match root.channel with
    | none => []
    | some ch => ch.items.map parse_rss_item

/-! ## Per-series orchestration after the feed fetch
(`crawl_from_rss.py`, `process_series_async`, lines 303-385)

The browser-bound steps are oracles: `fetchHtml` stands for
`fetch_article_content_async`, `conv` for `convert_html_to_markdown`, and
`saveOk` for the success of `save_article_as_markdown`'s file write.  Image
processing (step 4) is modelled separately below. -/

/-- Outcome of `process_series_async` as far as control flow is concerned:
the returned success count, whether the series directory was created
(line 344 is reached), and which articles entered the step-3 loop. -/
structure SeriesOutcome where
  successCount : Nat
  dirCreated : Bool
  articlesProcessed : List Article
deriving DecidableEq

/-- Whether one iteration of the article loop (lines 351-377) increments
`success_count`: the link must be truthy, the fetched HTML non-empty, the
converted Markdown non-empty, and the save must succeed. -/
def article_success (fetchHtml : List Char → List Char)
    (conv : List Char → List Char) (saveOk : Article → Bool)
    (a : Article) : Bool :=
  match a.link with
  | none => false
  | some l =>
    if l = [] then false
    else
      let html := fetchHtml l
      if html = [] then false
      else
        let mdc := conv html
        if mdc = [] then false
        else saveOk a

/-- `process_series_async` after the series-info fetch (lines 319-377):
skip the series when the info is `None` (lines 320-322) or when the article
list is empty (lines 337-339); otherwise create the directory and run the
article loop. -/
def process_series (seriesInfo : Option (List Char × List Char))
    (parsed : Except Unit RssDoc)
    (fetchHtml : List Char → List Char) (conv : List Char → List Char)
    (saveOk : Article → Bool) : SeriesOutcome :=
  match seriesInfo with
  | none => ⟨0, false, []⟩
  | some _ =>
    let articles := fetch_rss_articles parsed
    if articles.isEmpty then ⟨0, false, []⟩
    else
      ⟨(articles.filter (article_success fetchHtml conv saveOk)).length,
       true, articles⟩

/-! ## Document writer
(`crawl_from_rss.py`, `save_article_as_markdown`, lines 269-300)

The output directory is embedded as an association list from file names to
file contents; `open(path, "w")` followed by `write` is an overwriting
update of that list.  Text is Unicode in both worlds, so the UTF-8 encoding
step is the identity of the embedding. -/

/-- The `full_content` assembly of lines 284-288: `# {title}\n\n`, then
`> 原文連結: {link}\n\n` when the link is truthy, then the body. -/
def build_full_content (title link body : List Char) : List Char :=
  let c := "# ".toList ++ title ++ "\n\n".toList
  let c := if link = [] then c
           else c ++ "> 原文連結: ".toList ++ link ++ "\n\n".toList
  c ++ body

/-- Overwriting file write: replace the contents stored under `name`, or
append a new entry when the name is absent. -/
def writeFile (store : List (List Char × List Char)) (name content : List Char) :
    List (List Char × List Char) :=
  match store with
  | [] => [(name, content)]
  | (n, c) :: rest =>
    if n = name then (name, content) :: rest else (n, c) :: writeFile rest name content

/-- Association-list lookup (also used for the `url_to_local` dict of the
image harvester). -/
def alookup (l : List (List Char × List Char)) (k : List Char) :
    Option (List Char) :=
  match l with
  | [] => none
  | (k', v) :: rest => if k' = k then some v else alookup rest k

/-- `save_article_as_markdown` (lines 269-300): write `full_content` to
`output_dir / (sanitize_filename(title) + ".md")`, overwriting. -/
def save_article_as_markdown (title link body : List Char)
    (store : List (List Char × List Char)) : List (List Char × List Char) :=
  writeFile store (sanitize_filename title ++ ".md".toList)
    (build_full_content title link body)

/-! ## Image harvesting
(`crawl_from_rss.py`, `process_images_in_series`, lines 441-545)

A series directory is a list of `(name, content)` pairs for its `.md` files,
in `glob` order; the `media` subdirectory is tracked as the list of
`(url, filename)` pairs written by successful downloads.  `download_image_async`
is an oracle `dl : List Char → Bool` giving the success of the single GET per
URL (deterministic per run, as one network attempt's outcome function);
`uuid.uuid4()` is a name supply `names : Nat → List Char` consulted at an
increasing counter.  Besides the statistics dict, the embedded state records
the run's download attempts and reference rewrites so the claims about "how
often" can be stated; these trace fields mirror events of the source
(an attempt is one `download_image_async` call, a rewrite is one
`new_content.replace(old_image_md, new_image_md)` with a resolved local
name). -/

/-- One parse attempt of the regex `!\[([^\]]*)\]\(([^)]+)\)` anchored at the
head of the string: on success returns the alt text, the URL, and the suffix
after the match. -/
def parseImageAt (s : List Char) : Option (List Char × List Char × List Char) :=
  match s with
  | '!' :: '[' :: rest =>
    let alt := rest.takeWhile (fun c => !(c = ']'))
    match rest.dropWhile (fun c => !(c = ']')) with
    | ']' :: '(' :: rest2 =>
      let url := rest2.takeWhile (fun c => !(c = ')'))
      if url = [] then none
      else
        match rest2.dropWhile (fun c => !(c = ')')) with
        | ')' :: rest3 => some (alt, url, rest3)
        | _ => none
    | _ => none
  | _ => none

/-- Fuel-driven `re.findall` for the image regex: leftmost non-overlapping
matches, resuming after each match.  Fuel is instantiated with the string
length, which suffices because every step consumes at least one character. -/
def findImagesGo : Nat → List Char → List (List Char × List Char)
  | 0, _ => []
  | _ + 1, [] => []
  | fuel + 1, c :: cs =>
    match parseImageAt (c :: cs) with
    | some (alt, url, rest) => (alt, url) :: findImagesGo fuel rest
    | none => findImagesGo fuel cs

/-- `image_pattern.findall(content)` (`crawl_from_rss.py` lines 464, 489). -/
def findImages (s : List Char) : List (List Char × List Char) :=
  findImagesGo s.length s

/-- Fuel-driven Python `str.replace`: replace every non-overlapping occurrence
of `pat` left to right, resuming after each replacement.  Fuel is
instantiated with the string length; the patterns used by the crawler are
never empty. -/
def replaceAllGo (pat repl : List Char) : Nat → List Char → List Char
  | 0, s => s
  | _ + 1, [] => []
  | fuel + 1, c :: cs =>
    if pat ≠ [] ∧ pat.isPrefixOf (c :: cs) then
      repl ++ replaceAllGo pat repl fuel ((c :: cs).drop pat.length)
    else c :: replaceAllGo pat repl fuel cs

/-- `content.replace(pat, repl)`. -/
def replaceAll (pat repl s : List Char) : List Char :=
  replaceAllGo pat repl s.length s

/-- The Markdown image literal `![alt](url)` (lines 533-534). -/
def imageMd (alt url : List Char) : List Char :=
  "![".toList ++ alt ++ "](".toList ++ url ++ ")".toList

/-- Line 501: the URL is already a local reference. -/
def isLocalUrl (url : List Char) : Bool :=
  "media/".toList.isPrefixOf url || "./media/".toList.isPrefixOf url

/-- Line 506: the URL is HTTP(S)-schemed. -/
def isHttpUrl (url : List Char) : Bool :=
  "http://".toList.isPrefixOf url || "https://".toList.isPrefixOf url

/-- The replacement of lines 532-535 for one occurrence resolved to the local
file name `fn`. -/
def rewriteContent (content alt url fn : List Char) : List Char :=
  replaceAll (imageMd alt url) (imageMd alt ("media/".toList ++ fn)) content

/-- The run state of one `process_images_in_series` call: the `url_to_local`
registry, the uuid counter, the statistics counters, and the event traces
(download attempts with their outcome, files written under `media/`, and
reference rewrites with their resolved local name). -/
structure OccState where
  registry : List (List Char × List Char)
  counter : Nat
  success : Nat
  failed : Nat
  imgCount : Nat
  attempts : List (List Char × Bool)
  media : List (List Char × List Char)
  rewrites : List (List Char × List Char)
deriving DecidableEq

/-- The state at the start of a run: empty registry, zero counters. -/
def initOccState : OccState := ⟨[], 0, 0, 0, 0, [], [], []⟩

/-- The state effect of one iteration of the `for alt_text, image_url in
matches` loop (lines 497-530): count the image; skip local and non-HTTP URLs;
reuse a registered filename; otherwise generate a fresh name, attempt the
download, and on success record the registry entry, the media write and the
rewrite, on failure count the failure. -/
def occStep (dl : List Char → Bool) (names : Nat → List Char)
    (s : OccState) (url : List Char) : OccState :=
  let s1 := { s with imgCount := s.imgCount + 1 }
  if isLocalUrl url then s1
  else if !isHttpUrl url then s1
  else
    match alookup s1.registry url with
    | some fn => { s1 with rewrites := (url, fn) :: s1.rewrites }
    | none =>
      let fn := names s1.counter ++ get_image_extension url pngExt
      let ok := dl url
      let s2 := { s1 with counter := s1.counter + 1,
                          attempts := (url, ok) :: s1.attempts }
      if ok then
        { s2 with success := s2.success + 1,
                  registry := (url, fn) :: s2.registry,
                  media := (url, fn) :: s2.media,
                  rewrites := (url, fn) :: s2.rewrites }
      else { s2 with failed := s2.failed + 1 }

/-- The content effect of the same loop iteration: the occurrence's reference
is rewritten exactly when it resolves to a local name (registry hit, or a
successful fresh download); a skipped or failed occurrence leaves the
document text unchanged (lines 501-535). -/
def contentAfter (dl : List Char → Bool) (names : Nat → List Char)
    (s : OccState) (content alt url : List Char) : List Char :=
  if isLocalUrl url then content
  else if !isHttpUrl url then content
  else
    match alookup s.registry url with
    | some fn => rewriteContent content alt url fn
    | none =>
      if dl url then
        rewriteContent content alt url
          (names s.counter ++ get_image_extension url pngExt)
      else content

/-- One loop iteration on the combined (state, document text) pair:
`occStep` and `contentAfter` factor the body of lines 497-535 into its state
effect and its text effect. -/
def imgStep (dl : List Char → Bool) (names : Nat → List Char)
    (sc : OccState × List Char) (m : List Char × List Char) :
    OccState × List Char :=
  (occStep dl names sc.1 m.2, contentAfter dl names sc.1 sc.2 m.1 m.2)

/-- Processing of one `.md` file (lines 478-543): find all image matches in
the file's text and run the occurrence loop over them; the file keeps its
name and receives the final text (the source writes the file back only when
the text changed, which leaves the same contents on disk either way). -/
def processFile (dl : List Char → Bool) (names : Nat → List Char)
    (s : OccState) (file : List Char × List Char) :
    OccState × (List Char × List Char) :=
  let r := (findImages file.2).foldl (imgStep dl names) (s, file.2)
  (r.1, (file.1, r.2))

/-- The `for md_file in series_dir.glob("*.md")` loop over the whole series
directory, threading the run state through the files in order. -/
def processFiles (dl : List Char → Bool) (names : Nat → List Char)
    (s : OccState) : List (List Char × List Char) →
    OccState × List (List Char × List Char)
  | [] => (s, [])
  | f :: fs =>
    let r := processFile dl names s f
    let rest := processFiles dl names r.1 fs
    (rest.1, r.2 :: rest.2)

/-- The statistics dict returned by `process_images_in_series`
(lines 456-461). -/
structure ImgStats where
  article_count : Nat
  image_count : Nat
  download_success : Nat
  download_failed : Nat
deriving DecidableEq

/-- `process_images_in_series` (lines 441-545): a missing or non-directory
path (`input = none`) returns the all-zero statistics immediately
(lines 466-468); otherwise every `.md` file is processed in order and the
statistics are assembled from the final state (`article_count` is the number
of files read, every file being readable in this embedding).  The result also
carries the rewritten files and the final run state. -/
def process_images_in_series (dl : List Char → Bool) (names : Nat → List Char)
    (input : Option (List (List Char × List Char))) :
    ImgStats × List (List Char × List Char) × OccState :=
  match input with
  | none => (⟨0, 0, 0, 0⟩, [], initOccState)
  | some files =>
    let r := processFiles dl names initOccState files
    (⟨files.length, r.1.imgCount, r.1.success, r.1.failed⟩, r.2, r.1)

/-- The URLs of a file's image matches, in match order. -/
def fileUrls (f : List Char × List Char) : List (List Char) :=
  (findImages f.2).map (fun m => m.2)

/-- All image-match URLs of a series directory, in processing order. -/
def allUrls : List (List Char × List Char) → List (List Char)
  | [] => []
  | f :: fs => fileUrls f ++ allUrls fs

/-- Number of download attempts for `u` that succeeded. -/
def countSuccAttempts (u : List Char) : List (List Char × Bool) → Nat
  | [] => 0
  | a :: rest => (if a.1 = u ∧ a.2 = true then 1 else 0) + countSuccAttempts u rest

/-- Number of entries for key `u` in an association-list trace. -/
def countKey (u : List Char) : List (List Char × List Char) → Nat
  | [] => 0
  | a :: rest => (if a.1 = u then 1 else 0) + countKey u rest

/-- Number of occurrences of `u` in a URL list. -/
def countOcc (u : List Char) : List (List Char) → Nat
  | [] => 0
  | v :: rest => (if v = u then 1 else 0) + countOcc u rest

/-! ## Helper lemmas about list scanning -/

theorem mem_of_mem_dropWhile {α : Type} {c : α} {p : α → Bool} :
    ∀ {l : List α}, c ∈ l.dropWhile p → c ∈ l := by
  intro l
  induction l with
  | nil => simp [List.dropWhile]
  | cons d ds ih =>
    intro h
    rw [List.dropWhile_cons] at h
    by_cases hpd : p d = true
    · rw [if_pos hpd] at h
      exact List.mem_cons_of_mem _ (ih h)
    · rw [if_neg hpd] at h
      exact h

theorem mem_dropWhile_of_mem {α : Type} {c : α} {p : α → Bool} :
    ∀ {l : List α}, c ∈ l → p c = false → c ∈ l.dropWhile p := by
  intro l
  induction l with
  | nil => simp
  | cons d ds ih =>
    intro h hc
    rw [List.dropWhile_cons]
    by_cases hpd : p d = true
    · rw [if_pos hpd]
      rcases List.mem_cons.mp h with h1 | h2
      · subst h1; rw [hc] at hpd; cases hpd
      · exact ih h2 hc
    · rw [if_neg hpd]
      exact h

theorem dropWhile_head_false {α : Type} {p : α → Bool} :
    ∀ {l : List α} {x : α} {xs : List α}, l.dropWhile p = x :: xs → p x = false := by
  intro l
  induction l with
  | nil => intro x xs h; cases h
  | cons d ds ih =>
    intro x xs h
    rw [List.dropWhile_cons] at h
    by_cases hpd : p d = true
    · rw [if_pos hpd] at h
      exact ih h
    · rw [if_neg hpd] at h
      cases h
      simpa using hpd

theorem dropWhile_suffix_decomp {α : Type} (p : α → Bool) :
    ∀ (l : List α), ∃ pre, l = pre ++ l.dropWhile p := by
  intro l
  induction l with
  | nil => exact ⟨[], rfl⟩
  | cons d ds ih =>
    rw [List.dropWhile_cons]
    by_cases hpd : p d = true
    · rw [if_pos hpd]
      rcases ih with ⟨pre, hpre⟩
      exact ⟨d :: pre, by rw [List.cons_append, ← hpre]⟩
    · rw [if_neg hpd]
      exact ⟨[], rfl⟩

theorem mem_pyStrip_of_mem {c : Char} {p : Char → Bool} {l : List Char}
    (h : c ∈ l) (hc : p c = false) : c ∈ pyStrip p l := by
  unfold pyStrip
  rw [List.mem_reverse]
  apply mem_dropWhile_of_mem _ hc
  rw [List.mem_reverse]
  exact mem_dropWhile_of_mem h hc

theorem mem_of_mem_pyStrip {c : Char} {p : Char → Bool} {l : List Char}
    (h : c ∈ pyStrip p l) : c ∈ l := by
  unfold pyStrip at h
  rw [List.mem_reverse] at h
  have h2 := mem_of_mem_dropWhile h
  rw [List.mem_reverse] at h2
  exact mem_of_mem_dropWhile h2

/-- The stripped string is a prefix of the front-stripped string, hence its
head is not a `p`-character. -/
theorem pyStrip_head_false {p : Char → Bool} {l : List Char} {x : Char}
    {xs : List Char} (h : pyStrip p l = x :: xs) : p x = false := by
  rcases dropWhile_suffix_decomp p (l.dropWhile p).reverse with ⟨pre, hpre⟩
  have hm : l.dropWhile p = pyStrip p l ++ pre.reverse := by
    unfold pyStrip
    conv_lhs => rw [← List.reverse_reverse (l.dropWhile p), hpre]
    rw [List.reverse_append]
  rw [h, List.cons_append] at hm
  exact dropWhile_head_false hm

theorem mem_collapseGo {c : Char} :
    ∀ (fuel : Nat) (s : List Char), c ∈ collapseGo fuel s → c = '_' ∨ c ∈ s := by
  intro fuel
  induction fuel with
  | zero => intro s h; exact Or.inr h
  | succ n ih =>
    intro s h
    match s with
    | [] => simp [collapseGo] at h
    | d :: ds =>
      by_cases hd : d = '_'
      · rw [collapseGo, if_pos hd] at h
        rcases List.mem_cons.mp h with h1 | h2
        · exact Or.inl h1
        · rcases ih _ h2 with h3 | h4
          · exact Or.inl h3
          · exact Or.inr (List.mem_cons_of_mem _ (mem_of_mem_dropWhile h4))
      · rw [collapseGo, if_neg hd] at h
        rcases List.mem_cons.mp h with h1 | h2
        · exact Or.inr (h1 ▸ List.mem_cons_self _ _)
        · rcases ih _ h2 with h3 | h4
          · exact Or.inl h3
          · exact Or.inr (List.mem_cons_of_mem _ h4)

theorem collapseGo_ne_nil {fuel : Nat} {s : List Char} (h : s ≠ []) :
    collapseGo fuel s ≠ [] := by
  match fuel, s with
  | 0, s => exact h
  | n + 1, [] => exact absurd rfl h
  | n + 1, d :: ds =>
    by_cases hd : d = '_'
    · rw [collapseGo, if_pos hd]; exact List.cons_ne_nil _ _
    · rw [collapseGo, if_neg hd]; exact List.cons_ne_nil _ _

theorem collapseGo_head {fuel : Nat} {s : List Char} {x : Char} {xs : List Char}
    (h : collapseGo fuel s = x :: xs) : ∃ t, s = x :: t := by
  match fuel, s with
  | 0, s => exact ⟨xs, h⟩
  | n + 1, [] => cases h
  | n + 1, d :: ds =>
    by_cases hd : d = '_'
    · rw [collapseGo, if_pos hd] at h
      cases h
      exact ⟨ds, by rw [hd]⟩
    · rw [collapseGo, if_neg hd] at h
      cases h
      exact ⟨ds, rfl⟩

theorem noDoubleUnderscore_collapseGo :
    ∀ (fuel : Nat) (s : List Char), s.length ≤ fuel →
      noDoubleUnderscore (collapseGo fuel s) = true := by
  intro fuel
  induction fuel with
  | zero =>
    intro s hs
    have : s = [] := List.length_eq_zero.mp (Nat.le_zero.mp hs)
    subst this
    rfl
  | succ n ih =>
    intro s hs
    match s with
    | [] => rfl
    | d :: ds =>
      have hlen : ds.length ≤ n := by
        simpa [Nat.succ_le_succ_iff] using hs
      by_cases hd : d = '_'
      · rw [collapseGo, if_pos hd]
        have hlen' : (ds.dropWhile (fun e => e = '_')).length ≤ n :=
          le_trans (List.dropWhile_sublist _).length_le hlen
        have htail := ih _ hlen'
        cases hx : collapseGo n (ds.dropWhile (fun e => e = '_')) with
        | nil => rfl
        | cons x xs =>
          rcases collapseGo_head hx with ⟨t, ht⟩
          have hxu : (x = '_') = False := by
            have := dropWhile_head_false (ht ▸ rfl :
              ds.dropWhile (fun e => e = '_') = x :: t)
            simpa using this
          rw [hx] at htail
          simp [noDoubleUnderscore, hxu, htail]
      · rw [collapseGo, if_neg hd]
        have htail := ih ds hlen
        cases hx : collapseGo n ds with
        | nil => rfl
        | cons x xs =>
          rw [hx] at htail
          simp [noDoubleUnderscore, hd, htail]

theorem noDoubleUnderscore_take :
    ∀ (s : List Char) (n : Nat), noDoubleUnderscore s = true →
      noDoubleUnderscore (s.take n) = true := by
  intro s
  induction s with
  | nil => intro n _; rw [List.take_nil]; rfl
  | cons d ds ih =>
    intro n h
    match n with
    | 0 => rfl
    | m + 1 =>
      rw [List.take_succ_cons]
      match ds, m with
      | [], m => rw [List.take_nil]; rfl
      | e :: es, 0 => rfl
      | e :: es, k + 1 =>
        rw [noDoubleUnderscore, Bool.and_eq_true] at h
        have hih := ih (k + 1) h.2
        rw [List.take_succ_cons] at hih ⊢
        rw [noDoubleUnderscore, Bool.and_eq_true]
        exact ⟨h.1, hih⟩

theorem take_cons_decomp {α : Type} :
    ∀ {n : Nat} {l : List α} {x : α} {xs : List α},
      l.take n = x :: xs → ∃ t, l = x :: t := by
  intro n l x xs h
  match n, l with
  | 0, l => simp at h
  | n + 1, [] => simp at h
  | n + 1, y :: t =>
    rw [List.take_succ_cons] at h
    cases h
    exact ⟨t, rfl⟩

/-! ## Facts about `sanitize_filename` -/

theorem sanitize_filename_eq (t : List Char) :
    sanitize_filename t =
      if 200 < (sanitizeCore t).length then (sanitizeCore t).take 200
      else sanitizeCore t := rfl

theorem sanitizeCore_not_invalid {t : List Char} {c : Char}
    (h : c ∈ sanitizeCore t) : isInvalidChar c = false := by
  unfold sanitizeCore collapseUnderscores at h
  rcases mem_collapseGo _ _ h with h1 | h2
  · subst h1; decide
  · have h3 := mem_of_mem_pyStrip (mem_of_mem_pyStrip h2)
    rcases List.mem_map.mp h3 with ⟨a, _, ha⟩
    by_cases hia : isInvalidChar a = true
    · rw [if_pos hia] at ha
      rw [← ha]; decide
    · rw [if_neg hia] at ha
      rw [← ha]; simpa using hia

theorem sanitize_filename_not_invalid {t : List Char} {c : Char}
    (h : c ∈ sanitize_filename t) : isInvalidChar c = false := by
  rw [sanitize_filename_eq] at h
  by_cases h2 : 200 < (sanitizeCore t).length
  · rw [if_pos h2] at h
    exact sanitizeCore_not_invalid (List.take_subset _ _ h)
  · rw [if_neg h2] at h
    exact sanitizeCore_not_invalid h

theorem sanitizeCore_head_ne_dot {t : List Char} {x : Char} {xs : List Char}
    (h : sanitizeCore t = x :: xs) : ¬ x = '.' := by
  unfold sanitizeCore collapseUnderscores at h
  rcases collapseGo_head h with ⟨t', ht'⟩
  have := pyStrip_head_false ht'
  simpa using this

theorem sanitize_filename_head_ne_dot {t : List Char} {x : Char} {xs : List Char}
    (h : sanitize_filename t = x :: xs) : ¬ x = '.' := by
  rw [sanitize_filename_eq] at h
  by_cases h2 : 200 < (sanitizeCore t).length
  · rw [if_pos h2] at h
    rcases take_cons_decomp h with ⟨t', ht'⟩
    exact sanitizeCore_head_ne_dot ht'
  · rw [if_neg h2] at h
    exact sanitizeCore_head_ne_dot h

theorem sanitize_filename_noDoubleUnderscore (t : List Char) :
    noDoubleUnderscore (sanitize_filename t) = true := by
  have hcore : noDoubleUnderscore (sanitizeCore t) = true := by
    unfold sanitizeCore collapseUnderscores
    exact noDoubleUnderscore_collapseGo _ _ (Nat.le_refl _)
  rw [sanitize_filename_eq]
  by_cases h2 : 200 < (sanitizeCore t).length
  · rw [if_pos h2]
    exact noDoubleUnderscore_take _ _ hcore
  · rw [if_neg h2]
    exact hcore

theorem sanitize_filename_length_le (t : List Char) :
    (sanitize_filename t).length ≤ 200 := by
  rw [sanitize_filename_eq]
  by_cases h2 : 200 < (sanitizeCore t).length
  · rw [if_pos h2, List.length_take]
    omega
  · rw [if_neg h2]
    omega

set_option maxRecDepth 4000 in
/-- **C3** (counterexample).  The claim asserts that for every title with an
illegal character the sanitized output has no leading or trailing whitespace
and no leading or trailing dot.  The code strips whitespace before it strips
dots, so `"<a ."` sanitizes to `"_a "` (trailing space) and `". a<"`
sanitizes to `" a_"` (leading space); and the 200-character truncation runs
after the dot strip, so a title whose 200th character is a dot sanitizes to a
string ending in a dot. -/
theorem C3_sanitize_counterexample :
    ((∃ c, c ∈ "<a .".toList ∧ isInvalidChar c = true)
      ∧ (sanitize_filename "<a .".toList).getLast? = some ' '
      ∧ pyIsSpace ' ' = true)
    ∧ ((∃ c, c ∈ ". a<".toList ∧ isInvalidChar c = true)
      ∧ (sanitize_filename ". a<".toList).head? = some ' ')
    ∧ ((∃ c, c ∈ ('<' :: (List.replicate 198 'a' ++ ['.', 'b']))
          ∧ isInvalidChar c = true)
      ∧ (sanitize_filename ('<' :: (List.replicate 198 'a' ++ ['.', 'b']))).getLast?
          = some '.') := by
  refine ⟨⟨⟨'<', ?_, ?_⟩, ?_, ?_⟩, ⟨⟨'<', ?_, ?_⟩, ?_⟩, ⟨⟨'<', ?_, ?_⟩, ?_⟩⟩ <;> decide

/-- **C3** (amended).  For every title containing an illegal character, the
output of `sanitize_filename` contains no character from `<>:"/\|?*`, no
control character (U+0000..U+001F), does not start with a dot, has no run of
two or more consecutive underscores, and has length at most 200.  (Dropped
from the original claim: freedom from leading/trailing whitespace — the
whitespace strip precedes the dot strip, so stripping a trailing dot can
expose whitespace — and freedom from a trailing dot, which truncation can
expose.) -/
theorem C3_sanitize_amended (t : List Char)
    (_hill : ∃ c, c ∈ t ∧ isInvalidChar c = true) :
    (∀ c, c ∈ sanitize_filename t →
      ¬ c ∈ ['<', '>', ':', '\"', '/', '\\', '|', '?', '*'] ∧ 31 < c.toNat)
    ∧ (∀ x xs, sanitize_filename t = x :: xs → ¬ x = '.')
    ∧ noDoubleUnderscore (sanitize_filename t) = true
    ∧ (sanitize_filename t).length ≤ 200 := by
  refine ⟨?_, ?_, sanitize_filename_noDoubleUnderscore t, sanitize_filename_length_le t⟩
  · intro c hc
    have hinv := sanitize_filename_not_invalid hc
    constructor
    · intro hmem
      have hmem' : c = '<' ∨ c = '>' ∨ c = ':' ∨ c = '\"' ∨ c = '/' ∨ c = '\\'
          ∨ c = '|' ∨ c = '?' ∨ c = '*' := by
        simpa using hmem
      have hct : isInvalidChar c = true := by
        rcases hmem' with h | h | h | h | h | h | h | h | h <;> subst h <;> decide
      rw [hct] at hinv
      cases hinv
    · unfold isInvalidChar at hinv
      simp only [Bool.or_eq_false_iff, decide_eq_false_iff_not] at hinv
      have := hinv.2
      omega
  · intro x xs hx
    exact sanitize_filename_head_ne_dot hx

/-- **C3** (witness for the amended theorem). -/
theorem C3_sanitize_witness :
    noDoubleUnderscore (sanitize_filename "a<__b".toList) = true
    ∧ (sanitize_filename "a<__b".toList).length ≤ 200 :=
  ⟨(C3_sanitize_amended "a<__b".toList ⟨'<', by decide, by decide⟩).2.2.1,
   (C3_sanitize_amended "a<__b".toList ⟨'<', by decide, by decide⟩).2.2.2⟩

/-- **C4** (counterexample).  The claim asserts a non-empty output for every
non-empty title containing at least one legal character.  The title `"."`
consists of the legal character `.` alone, yet sanitizes to the empty
string (the strip of leading/trailing dots removes everything). -/
theorem C4_sanitize_counterexample :
    sanitize_filename ['.'] = [] ∧ ('.' : Char) :: ([] : List Char) ≠ []
    ∧ isInvalidChar '.' = false := by
  refine ⟨?_, ?_, ?_⟩ <;> decide

/-- **C4** (amended).  `sanitize_filename` is deterministic (it is a pure
function of its input), and its output is non-empty for every input that
contains at least one legal character that is neither Python whitespace nor
a dot.  (The original claim required only a legal character; whitespace-only
or dot-only titles such as `"."` are counterexamples, since strip can erase
every legal whitespace and dot character.) -/
theorem C4_sanitize_amended (s : List Char)
    (h : ∃ c, c ∈ s ∧ isInvalidChar c = false ∧ pyIsSpace c = false ∧ ¬ c = '.') :
    (∀ t, s = t → sanitize_filename s = sanitize_filename t)
    ∧ sanitize_filename s ≠ [] := by
  constructor
  · intro t ht
    rw [ht]
  · rcases h with ⟨c, hc, hinv, hsp, hdot⟩
    have h1 : c ∈ s.map (fun d => if isInvalidChar d then '_' else d) := by
      refine List.mem_map.mpr ⟨c, hc, ?_⟩
      rw [if_neg (by simp [hinv])]
    have h2 : c ∈ pyStrip (fun d => d = '.')
        (pyStrip pyIsSpace (s.map (fun d => if isInvalidChar d then '_' else d))) := by
      apply mem_pyStrip_of_mem (mem_pyStrip_of_mem h1 hsp)
      simpa using hdot
    have h3 : sanitizeCore s ≠ [] := by
      unfold sanitizeCore collapseUnderscores
      exact collapseGo_ne_nil (List.ne_nil_of_mem h2)
    rw [sanitize_filename_eq]
    by_cases h4 : 200 < (sanitizeCore s).length
    · rw [if_pos h4]
      intro heq
      have hlen := congrArg List.length heq
      rw [List.length_take] at hlen
      simp only [List.length_nil] at hlen
      omega
    · rw [if_neg h4]
      exact h3

/-- **C4** (witness for the amended theorem). -/
theorem C4_sanitize_witness :
    (∀ t, "a".toList = t → sanitize_filename "a".toList = sanitize_filename t)
    ∧ sanitize_filename "a".toList ≠ [] :=
  C4_sanitize_amended "a".toList ⟨'a', by decide, by decide, by decide, by decide⟩

/-! ## Facts about `get_image_extension` (claim C9) -/

theorem firstExtMatch_mem {path e : List Char} :
    ∀ {l : List (List Char)}, firstExtMatch path l = some e → e ∈ l := by
  intro l
  induction l with
  | nil => intro h; cases h
  | cons d ds ih =>
    intro h
    rw [firstExtMatch] at h
    by_cases hd : d.isSuffixOf path = true
    · rw [if_pos hd] at h
      cases h
      exact List.mem_cons_self _ _
    · rw [if_neg hd] at h
      exact List.mem_cons_of_mem _ (ih h)

theorem get_image_extension_mem (url : List Char) :
    get_image_extension url pngExt ∈ imageExtensions := by
  show (firstExtMatch ((urlparse_path url).map Char.toLower)
    imageExtensions).getD pngExt ∈ imageExtensions
  cases hm : firstExtMatch ((urlparse_path url).map Char.toLower) imageExtensions with
  | none => rw [Option.getD_none]; decide
  | some e => rw [Option.getD_some]; exact firstExtMatch_mem hm

/-- `urlsplit` on a URL of the canonical shape `https://host/path?query#fragment`:
the scheme is `https` and the pre-params path is `/path`, independently of the
host, the query and the fragment. -/
theorem urlsplit_path_https (host p q f : List Char)
    (hhost : host.all (fun c => !(c = '/') && !(c = '?') && !(c = '#')
        && !isUnsafeUrlByte c) = true)
    (hp : p.all (fun c => !(c = '?') && !(c = '#') && !isUnsafeUrlByte c) = true)
    (hq : q.all (fun c => !(c = '#') && !isUnsafeUrlByte c) = true) :
    urlsplit_path ("https://".toList
        ++ (host ++ ('/' :: (p ++ ('?' :: (q ++ ('#' :: f)))))))
      = ("https".toList, '/' :: p) := by
  have hhost' := (List.all_eq_true).mp hhost
  have hp' := (List.all_eq_true).mp hp
  have hq' := (List.all_eq_true).mp hq
  have hA : List.dropWhile isC0OrSpace ("https://".toList
      ++ (host ++ ('/' :: (p ++ ('?' :: (q ++ ('#' :: f))))))) =
      "https://".toList ++ (host ++ ('/' :: (p ++ ('?' :: (q ++ ('#' :: f)))))) := rfl
  have hB : List.filter (fun c => !isUnsafeUrlByte c) ("https://".toList
      ++ (host ++ ('/' :: (p ++ ('?' :: (q ++ ('#' :: f))))))) =
      "https://".toList ++ (host ++ ('/' :: (p ++ ('?' :: (q ++ ('#' ::
        f.filter (fun c => !isUnsafeUrlByte c))))))) := by
    rw [List.filter_append, List.filter_append, List.filter_cons_of_pos (by decide),
        List.filter_append, List.filter_cons_of_pos (by decide), List.filter_append,
        List.filter_cons_of_pos (by decide)]
    rw [show List.filter (fun c => !isUnsafeUrlByte c) "https://".toList
        = "https://".toList from rfl]
    rw [List.filter_eq_self.mpr (fun a ha => by
      have := hhost' a ha
      simp only [Bool.and_eq_true] at this
      exact this.2)]
    rw [List.filter_eq_self.mpr (fun a ha => by
      have := hp' a ha
      simp only [Bool.and_eq_true] at this
      exact this.2)]
    rw [List.filter_eq_self.mpr (fun a ha => by
      have := hq' a ha
      simp only [Bool.and_eq_true] at this
      exact this.2)]
  have hC1 : ∀ r : List Char, (splitScheme ("https://".toList ++ r)).1
      = "https".toList := fun r => rfl
  have hC2 : ∀ r : List Char, (splitScheme ("https://".toList ++ r)).2
      = '/' :: '/' :: r := fun r => rfl
  have hD : splitNetloc ('/' :: '/' :: (host ++ ('/' :: (p ++ ('?' :: (q ++ ('#' ::
      f.filter (fun c => !isUnsafeUrlByte c)))))))) =
      '/' :: (p ++ ('?' :: (q ++ ('#' :: f.filter (fun c => !isUnsafeUrlByte c))))) := by
    rw [show splitNetloc ('/' :: '/' :: (host ++ ('/' :: (p ++ ('?' :: (q ++ ('#' ::
        f.filter (fun c => !isUnsafeUrlByte c)))))))) =
        (host ++ ('/' :: (p ++ ('?' :: (q ++ ('#' ::
          f.filter (fun c => !isUnsafeUrlByte c))))))).dropWhile
          (fun c => !(c = '/') && !(c = '?') && !(c = '#')) from rfl]
    rw [List.dropWhile_append_of_pos (fun a ha => by
      have := hhost' a ha
      simp only [Bool.and_eq_true] at this
      simp [this.1.1.1, this.1.1.2, this.1.2])]
    rfl
  have hE : List.takeWhile (fun c => !(c = '#'))
      ('/' :: (p ++ ('?' :: (q ++ ('#' :: f.filter (fun c => !isUnsafeUrlByte c)))))) =
      '/' :: (p ++ ('?' :: q)) := by
    rw [List.takeWhile_cons_of_pos (by decide)]
    rw [List.takeWhile_append_of_pos (fun a ha => by
      have := hp' a ha
      simp only [Bool.and_eq_true] at this
      simp [this.1.2])]
    rw [List.takeWhile_cons_of_pos (by decide)]
    rw [List.takeWhile_append_of_pos (fun a ha => by
      have := hq' a ha
      simp only [Bool.and_eq_true] at this
      simp [this.1])]
    rw [show List.takeWhile (fun c => !(c = '#'))
        ('#' :: f.filter (fun c => !isUnsafeUrlByte c)) = [] from rfl]
    rw [List.append_nil]
  have hF : List.takeWhile (fun c => !(c = '?')) ('/' :: (p ++ ('?' :: q))) =
      '/' :: p := by
    rw [List.takeWhile_cons_of_pos (by decide)]
    rw [List.takeWhile_append_of_pos (fun a ha => by
      have := hp' a ha
      simp only [Bool.and_eq_true] at this
      simp [this.1.1])]
    rw [show List.takeWhile (fun c => !(c = '?')) ('?' :: q) = [] from rfl]
    rw [List.append_nil]
  show ((splitScheme (List.filter (fun c => !isUnsafeUrlByte c)
          (List.dropWhile isC0OrSpace ("https://".toList
            ++ (host ++ ('/' :: (p ++ ('?' :: (q ++ ('#' :: f)))))))))).1,
        List.takeWhile (fun c => !(c = '?'))
          (List.takeWhile (fun c => !(c = '#'))
            (splitNetloc (splitScheme
              (List.filter (fun c => !isUnsafeUrlByte c)
                (List.dropWhile isC0OrSpace ("https://".toList
                  ++ (host ++ ('/' :: (p ++ ('?' :: (q ++ ('#' :: f)))))))))).2)))
    = ("https".toList, '/' :: p)
  rw [hA, hB, hC1, hC2, hD, hE, hF]

/-- `urlparse(url).path` on `https://host/path?query#fragment` with a
params-free path: `https` is in `uses_params`, but the path contains no `;`,
so the params split leaves `/path` unchanged — the result still depends only
on the path component. -/
theorem urlparse_path_https (host p q f : List Char)
    (hhost : host.all (fun c => !(c = '/') && !(c = '?') && !(c = '#')
        && !isUnsafeUrlByte c) = true)
    (hp : p.all (fun c => !(c = '?') && !(c = '#') && !(c = ';')
        && !isUnsafeUrlByte c) = true)
    (hq : q.all (fun c => !(c = '#') && !isUnsafeUrlByte c) = true) :
    urlparse_path ("https://".toList
        ++ (host ++ ('/' :: (p ++ ('?' :: (q ++ ('#' :: f))))))) = '/' :: p := by
  have hp0 : p.all (fun c => !(c = '?') && !(c = '#') && !isUnsafeUrlByte c)
      = true := by
    rw [List.all_eq_true] at hp ⊢
    intro x hx
    have := hp x hx
    simp only [Bool.and_eq_true] at this ⊢
    exact ⟨this.1.1, this.2⟩
  have hs := urlsplit_path_https host p q f hhost hp0 hq
  have hsemi : ¬ (';' ∈ ('/' :: p)) := by
    intro hmem
    rcases List.mem_cons.mp hmem with h | h
    · exact absurd h (by decide)
    · rw [List.all_eq_true] at hp
      have := hp _ h
      simp only [Bool.and_eq_true] at this
      have h2 := this.1.2
      simp at h2
  show (if (urlsplit_path ("https://".toList
        ++ (host ++ ('/' :: (p ++ ('?' :: (q ++ ('#' :: f)))))))).1 ∈ uses_params
      ∧ ';' ∈ (urlsplit_path ("https://".toList
        ++ (host ++ ('/' :: (p ++ ('?' :: (q ++ ('#' :: f)))))))).2
    then splitparams (urlsplit_path ("https://".toList
        ++ (host ++ ('/' :: (p ++ ('?' :: (q ++ ('#' :: f)))))))).2
    else (urlsplit_path ("https://".toList
        ++ (host ++ ('/' :: (p ++ ('?' :: (q ++ ('#' :: f)))))))).2)
    = '/' :: p
  rw [hs]
  show (if "https".toList ∈ uses_params ∧ ';' ∈ ('/' :: p)
    then splitparams ('/' :: p) else '/' :: p) = '/' :: p
  rw [if_neg (fun hand => hsemi hand.2)]

/-- **C9**: `get_image_extension` always returns a member of the eight-element
lowercase whitelist (the default `".png"` being itself a member); on a URL of
shape `https://host/path?query#fragment` with a params-free path the result
depends only on the path component (host, query and fragment are ignored);
the suffix match is case-insensitive, e.g. a URL ending in `".PNG?size=2"`
yields `".png"` and one ending in `".JpEg"` yields `".jpeg"`, while an
extension-free path falls back to `".png"`; and `urlparse`'s `;params` split
of the last path segment is honoured: `https://h/x.jpg;y.png` has path
`/x.jpg` and yields `".jpg"`. -/
theorem C9_get_image_extension (url host p q f : List Char)
    (hhost : host.all (fun c => !(c = '/') && !(c = '?') && !(c = '#')
        && !isUnsafeUrlByte c) = true)
    (hp : p.all (fun c => !(c = '?') && !(c = '#') && !(c = ';')
        && !isUnsafeUrlByte c) = true)
    (hq : q.all (fun c => !(c = '#') && !isUnsafeUrlByte c) = true) :
    get_image_extension url pngExt ∈ imageExtensions
    ∧ get_image_extension ("https://".toList
          ++ (host ++ ('/' :: (p ++ ('?' :: (q ++ ('#' :: f))))))) pngExt
        = (firstExtMatch (('/' :: p).map Char.toLower) imageExtensions).getD pngExt
    ∧ get_image_extension "https://i.imgur.com/x.PNG?size=2".toList pngExt
        = ".png".toList
    ∧ get_image_extension "https://a.b/c.JpEg".toList pngExt = ".jpeg".toList
    ∧ get_image_extension "https://a.b/c".toList pngExt = ".png".toList
    ∧ get_image_extension "https://h/x.jpg;y.png".toList pngExt
        = ".jpg".toList := by
  refine ⟨get_image_extension_mem url, ?_, by decide, by decide, by decide,
    by decide⟩
  unfold get_image_extension
  rw [urlparse_path_https host p q f hhost hp hq]

/-- **C9** (witness). -/
theorem C9_get_image_extension_witness :
    get_image_extension "x".toList pngExt ∈ imageExtensions
    ∧ get_image_extension ("https://".toList
          ++ ("i.imgur.com".toList ++ ('/' :: ("pic.GIF".toList
            ++ ('?' :: ("s=2".toList ++ ('#' :: "top".toList))))))) pngExt
        = (firstExtMatch (('/' :: "pic.GIF".toList).map Char.toLower)
            imageExtensions).getD pngExt
    ∧ get_image_extension "https://i.imgur.com/x.PNG?size=2".toList pngExt
        = ".png".toList
    ∧ get_image_extension "https://a.b/c.JpEg".toList pngExt = ".jpeg".toList
    ∧ get_image_extension "https://a.b/c".toList pngExt = ".png".toList
    ∧ get_image_extension "https://h/x.jpg;y.png".toList pngExt
        = ".jpg".toList :=
  C9_get_image_extension "x".toList "i.imgur.com".toList "pic.GIF".toList
    "s=2".toList "top".toList (by decide) (by decide) (by decide)

/-! ## Feed-parser claims (C5, C6) -/

/-- **C5**: for a well-formed feed document (one with a `channel` element),
the parser produces exactly one article per item, in document order (the
article list is the item list mapped through the per-item parse), and for
each item: a missing title element yields the title `"Untitled"`, a missing
link element yields the empty link, and a link whose text contains `?` is
truncated at (excluding) the first `?`. -/
theorem C5_feed_items (doc : RssDoc) (ch : RssChannel)
    (hch : doc.channel = some ch) (it : RssItem) (e : XmlElem) (l : List Char) :
    fetch_rss_articles (.ok doc) = ch.items.map parse_rss_item
    ∧ (fetch_rss_articles (.ok doc)).length = ch.items.length
    ∧ (it.titleElem = none → (parse_rss_item it).title = some "Untitled".toList)
    ∧ (it.linkElem = none → (parse_rss_item it).link = some [])
    ∧ (it.linkElem = some e → e.text = some l → '?' ∈ l →
        (parse_rss_item it).link = some (l.takeWhile (fun c => !(c = '?')))) := by
  refine ⟨?_, ?_, ?_, ?_, ?_⟩
  · show (match doc.channel with
      | none => []
      | some ch => ch.items.map parse_rss_item) = ch.items.map parse_rss_item
    rw [hch]
  · show (match doc.channel with
      | none => []
      | some ch => ch.items.map parse_rss_item).length = ch.items.length
    rw [hch]
    exact List.length_map _ _
  · intro ht
    unfold parse_rss_item
    rw [ht]
  · intro hl
    unfold parse_rss_item
    rw [hl]
    rfl
  · intro hl htext hq
    have hne : ¬ l = [] := by
      intro h
      subst h
      cases hq
    simp only [parse_rss_item, hl, htext, if_neg hne]

/-- **C5** (witness): a two-item feed; the first item has no title element
and no link element, the second has a link with a query string. -/
theorem C5_feed_items_witness :
    fetch_rss_articles (.ok ⟨some ⟨[⟨none, none⟩,
        ⟨some ⟨some "T".toList⟩, some ⟨some "https://a/b?x=1".toList⟩⟩]⟩⟩)
      = List.map parse_rss_item [⟨none, none⟩, ⟨some ⟨some "T".toList⟩,
          some ⟨some "https://a/b?x=1".toList⟩⟩]
    ∧ (parse_rss_item ⟨none, none⟩).title = some "Untitled".toList
    ∧ (parse_rss_item ⟨none, none⟩).link = some []
    ∧ (parse_rss_item ⟨some ⟨some "T".toList⟩,
        some ⟨some "https://a/b?x=1".toList⟩⟩).link = some "https://a/b".toList := by
  have h1 := C5_feed_items ⟨some ⟨[⟨none, none⟩,
      ⟨some ⟨some "T".toList⟩, some ⟨some "https://a/b?x=1".toList⟩⟩]⟩⟩
    ⟨[⟨none, none⟩, ⟨some ⟨some "T".toList⟩,
      some ⟨some "https://a/b?x=1".toList⟩⟩]⟩ rfl
    ⟨none, none⟩ ⟨none⟩ []
  have h2 := C5_feed_items ⟨some ⟨[⟨none, none⟩,
      ⟨some ⟨some "T".toList⟩, some ⟨some "https://a/b?x=1".toList⟩⟩]⟩⟩
    ⟨[⟨none, none⟩, ⟨some ⟨some "T".toList⟩,
      some ⟨some "https://a/b?x=1".toList⟩⟩]⟩ rfl
    ⟨some ⟨some "T".toList⟩, some ⟨some "https://a/b?x=1".toList⟩⟩
    ⟨some "https://a/b?x=1".toList⟩ "https://a/b?x=1".toList
  refine ⟨h1.1, h1.2.2.1 rfl, h1.2.2.2.1 rfl, ?_⟩
  rw [h2.2.2.2.2 rfl rfl (by decide)]
  decide

/-- **C6**: a malformed feed document is a `ParseError` parse outcome; the
parser catch turns it into an empty article list and returns normally, and at
the call site (`process_series_async` lines 337-339) the empty list makes the
series be skipped: the outcome is zero successes, no series directory, no
articles processed — the run continues instead of aborting. -/
theorem C6_malformed_feed (e : Unit) (info : List Char × List Char)
    (fetchHtml : List Char → List Char) (conv : List Char → List Char)
    (saveOk : Article → Bool) :
    fetch_rss_articles (.error e) = []
    ∧ process_series (some info) (.error e) fetchHtml conv saveOk
        = ⟨0, false, []⟩ := by
  exact ⟨rfl, rfl⟩

/-! ## Document-writer claim (C7) -/

theorem alookup_writeFile (store : List (List Char × List Char))
    (name content : List Char) :
    alookup (writeFile store name content) name = some content := by
  induction store with
  | nil => simp [writeFile, alookup]
  | cons hd tl ih =>
    rw [writeFile]
    by_cases h : hd.1 = name
    · rw [if_pos h]
      rw [alookup, if_pos rfl]
    · rw [if_neg h]
      rw [alookup, if_neg h]
      exact ih

/-- **C7**: `save_article_as_markdown` writes exactly
`"# " ++ title ++ "\n\n"`, then `"> 原文連結: " ++ link ++ "\n\n"` when the
link is non-empty and nothing extra when it is empty, then the body, to the
file named `sanitize_filename(title) ++ ".md"` in the output directory,
overwriting whatever that file previously contained (the lookup after the
write returns the new content for every prior directory state). -/
theorem C7_save_article (title link body : List Char)
    (store : List (List Char × List Char)) :
    build_full_content title link body
      = "# ".toList ++ title ++ "\n\n".toList
        ++ (if link = [] then []
            else "> 原文連結: ".toList ++ link ++ "\n\n".toList)
        ++ body
    ∧ alookup (save_article_as_markdown title link body store)
          (sanitize_filename title ++ ".md".toList)
        = some (build_full_content title link body) := by
  constructor
  · by_cases h : link = []
    · simp [build_full_content, h]
    · simp [build_full_content, h, List.append_assoc]
  · exact alookup_writeFile store _ _

/-! ## Image-harvester infrastructure lemmas -/

theorem occStep_local (dl : List Char → Bool) (names : Nat → List Char)
    (s : OccState) (url : List Char) (h : isLocalUrl url = true) :
    occStep dl names s url = { s with imgCount := s.imgCount + 1 } := by
  simp [occStep, h]

theorem occStep_nonhttp (dl : List Char → Bool) (names : Nat → List Char)
    (s : OccState) (url : List Char) (h1 : isLocalUrl url = false)
    (h2 : isHttpUrl url = false) :
    occStep dl names s url = { s with imgCount := s.imgCount + 1 } := by
  simp [occStep, h1, h2]

theorem occStep_hit (dl : List Char → Bool) (names : Nat → List Char)
    (s : OccState) (url fn : List Char) (h1 : isLocalUrl url = false)
    (h2 : isHttpUrl url = true) (h3 : alookup s.registry url = some fn) :
    occStep dl names s url =
      { s with imgCount := s.imgCount + 1,
               rewrites := (url, fn) :: s.rewrites } := by
  simp [occStep, h1, h2, h3]

theorem occStep_miss_ok (dl : List Char → Bool) (names : Nat → List Char)
    (s : OccState) (url : List Char) (h1 : isLocalUrl url = false)
    (h2 : isHttpUrl url = true) (h3 : alookup s.registry url = none)
    (h4 : dl url = true) :
    occStep dl names s url =
      { s with imgCount := s.imgCount + 1,
               counter := s.counter + 1,
               attempts := (url, true) :: s.attempts,
               success := s.success + 1,
               registry := (url, names s.counter ++ get_image_extension url pngExt)
                 :: s.registry,
               media := (url, names s.counter ++ get_image_extension url pngExt)
                 :: s.media,
               rewrites := (url, names s.counter ++ get_image_extension url pngExt)
                 :: s.rewrites } := by
  simp [occStep, h1, h2, h3, h4]

theorem occStep_miss_fail (dl : List Char → Bool) (names : Nat → List Char)
    (s : OccState) (url : List Char) (h1 : isLocalUrl url = false)
    (h2 : isHttpUrl url = true) (h3 : alookup s.registry url = none)
    (h4 : dl url = false) :
    occStep dl names s url =
      { s with imgCount := s.imgCount + 1,
               counter := s.counter + 1,
               attempts := (url, false) :: s.attempts,
               failed := s.failed + 1 } := by
  simp [occStep, h1, h2, h3, h4]

theorem contentAfter_local (dl : List Char → Bool) (names : Nat → List Char)
    (s : OccState) (content alt url : List Char) (h : isLocalUrl url = true) :
    contentAfter dl names s content alt url = content := by
  simp [contentAfter, h]

theorem contentAfter_nonhttp (dl : List Char → Bool) (names : Nat → List Char)
    (s : OccState) (content alt url : List Char) (h1 : isLocalUrl url = false)
    (h2 : isHttpUrl url = false) :
    contentAfter dl names s content alt url = content := by
  simp [contentAfter, h1, h2]

theorem contentAfter_miss_fail (dl : List Char → Bool) (names : Nat → List Char)
    (s : OccState) (content alt url : List Char) (h1 : isLocalUrl url = false)
    (h2 : isHttpUrl url = true) (h3 : alookup s.registry url = none)
    (h4 : dl url = false) :
    contentAfter dl names s content alt url = content := by
  simp [contentAfter, h1, h2, h3, h4]

theorem contentAfter_miss_ok (dl : List Char → Bool) (names : Nat → List Char)
    (s : OccState) (content alt url : List Char) (h1 : isLocalUrl url = false)
    (h2 : isHttpUrl url = true) (h3 : alookup s.registry url = none)
    (h4 : dl url = true) :
    contentAfter dl names s content alt url
      = rewriteContent content alt url
          (names s.counter ++ get_image_extension url pngExt) := by
  simp [contentAfter, h1, h2, h3, h4]

theorem foldl_imgStep_fst (dl : List Char → Bool) (names : Nat → List Char)
    (ms : List (List Char × List Char)) :
    ∀ (s : OccState) (c : List Char),
      (ms.foldl (imgStep dl names) (s, c)).1
        = (ms.map (fun m => m.2)).foldl (occStep dl names) s := by
  induction ms with
  | nil => intro s c; rfl
  | cons m ms ih =>
    intro s c
    rw [List.foldl_cons, List.map_cons, List.foldl_cons]
    exact ih _ _

theorem processFile_fst (dl : List Char → Bool) (names : Nat → List Char)
    (s : OccState) (f : List Char × List Char) :
    (processFile dl names s f).1 = (fileUrls f).foldl (occStep dl names) s := by
  unfold processFile fileUrls
  exact foldl_imgStep_fst dl names _ s f.2

theorem processFiles_fst (dl : List Char → Bool) (names : Nat → List Char) :
    ∀ (fs : List (List Char × List Char)) (s : OccState),
      (processFiles dl names s fs).1 = (allUrls fs).foldl (occStep dl names) s := by
  intro fs
  induction fs with
  | nil => intro s; rfl
  | cons f fs ih =>
    intro s
    rw [processFiles, allUrls, List.foldl_append, ← processFile_fst dl names s f]
    exact ih _

theorem alookup_cons (k' v k : List Char) (rest : List (List Char × List Char)) :
    alookup ((k', v) :: rest) k = if k' = k then some v else alookup rest k := rfl

theorem countSuccAttempts_cons (u v : List Char) (b : Bool)
    (l : List (List Char × Bool)) :
    countSuccAttempts u ((v, b) :: l)
      = (if v = u ∧ b = true then 1 else 0) + countSuccAttempts u l := rfl

theorem countKey_cons (u k v : List Char) (l : List (List Char × List Char)) :
    countKey u ((k, v) :: l) = (if k = u then 1 else 0) + countKey u l := rfl

theorem countOcc_cons (u v : List Char) (l : List (List Char)) :
    countOcc u (v :: l) = (if v = u then 1 else 0) + countOcc u l := rfl

theorem occStep_imgCount (dl : List Char → Bool) (names : Nat → List Char)
    (s : OccState) (url : List Char) :
    (occStep dl names s url).imgCount = s.imgCount + 1 := by
  cases h1 : isLocalUrl url with
  | true => rw [occStep_local dl names s url h1]
  | false =>
    cases h2 : isHttpUrl url with
    | false => rw [occStep_nonhttp dl names s url h1 h2]
    | true =>
      cases h3 : alookup s.registry url with
      | some fn => rw [occStep_hit dl names s url fn h1 h2 h3]
      | none =>
        cases h4 : dl url with
        | true => rw [occStep_miss_ok dl names s url h1 h2 h3 h4]
        | false => rw [occStep_miss_fail dl names s url h1 h2 h3 h4]

theorem occStep_sf_le (dl : List Char → Bool) (names : Nat → List Char)
    (s : OccState) (url : List Char) :
    (occStep dl names s url).success + (occStep dl names s url).failed
      ≤ s.success + s.failed + 1 := by
  cases h1 : isLocalUrl url with
  | true =>
    rw [occStep_local dl names s url h1]
    show s.success + s.failed ≤ s.success + s.failed + 1
    omega
  | false =>
    cases h2 : isHttpUrl url with
    | false =>
      rw [occStep_nonhttp dl names s url h1 h2]
      show s.success + s.failed ≤ s.success + s.failed + 1
      omega
    | true =>
      cases h3 : alookup s.registry url with
      | some fn =>
        rw [occStep_hit dl names s url fn h1 h2 h3]
        show s.success + s.failed ≤ s.success + s.failed + 1
        omega
      | none =>
        cases h4 : dl url with
        | true =>
          rw [occStep_miss_ok dl names s url h1 h2 h3 h4]
          show s.success + 1 + s.failed ≤ s.success + s.failed + 1
          omega
        | false =>
          rw [occStep_miss_fail dl names s url h1 h2 h3 h4]
          show s.success + (s.failed + 1) ≤ s.success + s.failed + 1
          omega

theorem run_imgCount (dl : List Char → Bool) (names : Nat → List Char) :
    ∀ (urls : List (List Char)) (s : OccState),
      (urls.foldl (occStep dl names) s).imgCount = s.imgCount + urls.length := by
  intro urls
  induction urls with
  | nil => intro s; simp
  | cons url urls ih =>
    intro s
    rw [List.foldl_cons]
    rw [ih (occStep dl names s url), occStep_imgCount]
    simp only [List.length_cons]
    omega

theorem run_sf_le (dl : List Char → Bool) (names : Nat → List Char) :
    ∀ (urls : List (List Char)) (s : OccState),
      (urls.foldl (occStep dl names) s).success
          + (urls.foldl (occStep dl names) s).failed
        ≤ s.success + s.failed + urls.length := by
  intro urls
  induction urls with
  | nil => intro s; simp
  | cons url urls ih =>
    intro s
    rw [List.foldl_cons]
    have h1 := ih (occStep dl names s url)
    have h2 := occStep_sf_le dl names s url
    simp only [List.length_cons]
    omega

theorem process_state_eq (dl : List Char → Bool) (names : Nat → List Char)
    (files : List (List Char × List Char)) :
    (process_images_in_series dl names (some files)).2.2
      = (allUrls files).foldl (occStep dl names) initOccState := by
  show (processFiles dl names initOccState files).1 = _
  exact processFiles_fst dl names files initOccState

theorem process_stats_eq (dl : List Char → Bool) (names : Nat → List Char)
    (files : List (List Char × List Char)) :
    (process_images_in_series dl names (some files)).1
      = ⟨files.length,
         ((allUrls files).foldl (occStep dl names) initOccState).imgCount,
         ((allUrls files).foldl (occStep dl names) initOccState).success,
         ((allUrls files).foldl (occStep dl names) initOccState).failed⟩ := by
  show (⟨files.length, (processFiles dl names initOccState files).1.imgCount,
        (processFiles dl names initOccState files).1.success,
        (processFiles dl names initOccState files).1.failed⟩ : ImgStats) = _
  rw [processFiles_fst dl names files initOccState]

/-- **C10**: after every run, `download_success + download_failed ≤ image_count`,
and `image_count` equals the total number of image-pattern matches across all
`.md` files of the directory (`allUrls` lists one URL per `findImages` match,
including the matches skipped as local, non-HTTP or already registered); a
missing or non-directory path yields the all-zero statistics (and no file
changes) without raising. -/
theorem C10_statistics (dl : List Char → Bool) (names : Nat → List Char)
    (files : List (List Char × List Char)) :
    (process_images_in_series dl names (some files)).1.download_success
        + (process_images_in_series dl names (some files)).1.download_failed
      ≤ (process_images_in_series dl names (some files)).1.image_count
    ∧ (process_images_in_series dl names (some files)).1.image_count
        = (allUrls files).length
    ∧ process_images_in_series dl names none
        = (⟨0, 0, 0, 0⟩, [], initOccState) := by
  rw [process_stats_eq]
  refine ⟨?_, ?_, rfl⟩
  · have h1 := run_sf_le dl names (allUrls files) initOccState
    have h2 := run_imgCount dl names (allUrls files) initOccState
    have e1 : initOccState.success = 0 := rfl
    have e2 : initOccState.failed = 0 := rfl
    have e3 : initOccState.imgCount = 0 := rfl
    show ((allUrls files).foldl (occStep dl names) initOccState).success
        + ((allUrls files).foldl (occStep dl names) initOccState).failed
      ≤ ((allUrls files).foldl (occStep dl names) initOccState).imgCount
    omega
  · show ((allUrls files).foldl (occStep dl names) initOccState).imgCount
      = (allUrls files).length
    rw [run_imgCount]
    have e3 : initOccState.imgCount = 0 := rfl
    omega

/-- **C8**: for an occurrence whose URL is remote (HTTP(S) and not already
local) and not yet registered, a failing download leaves the whole state
unchanged except for the image counter, the uuid counter, the recorded failed
attempt and the failure tally — in particular no registry entry, no media
write, no rewrite — and leaves the document text unchanged (the occurrence
still points at its original remote URL); a succeeding download records the
media write `media/{filename}`, the registry entry and the rewrite, and
increments the success tally; and in either case the loop goes on: processing
the remaining matches continues from the updated state. -/
theorem C8_download_failure (dl dlOk : List Char → Bool) (names : Nat → List Char)
    (s : OccState) (alt url content : List Char)
    (hlocal : isLocalUrl url = false) (hhttp : isHttpUrl url = true)
    (hreg : alookup s.registry url = none)
    (hfail : dl url = false) (hok : dlOk url = true) :
    imgStep dl names (s, content) (alt, url)
      = ({ s with imgCount := s.imgCount + 1,
                  counter := s.counter + 1,
                  attempts := (url, false) :: s.attempts,
                  failed := s.failed + 1 }, content)
    ∧ imgStep dlOk names (s, content) (alt, url)
      = ({ s with imgCount := s.imgCount + 1,
                  counter := s.counter + 1,
                  attempts := (url, true) :: s.attempts,
                  success := s.success + 1,
                  registry := (url, names s.counter
                    ++ get_image_extension url pngExt) :: s.registry,
                  media := (url, names s.counter
                    ++ get_image_extension url pngExt) :: s.media,
                  rewrites := (url, names s.counter
                    ++ get_image_extension url pngExt) :: s.rewrites },
         rewriteContent content alt url
           (names s.counter ++ get_image_extension url pngExt))
    ∧ (∀ ms : List (List Char × List Char),
        ((alt, url) :: ms).foldl (imgStep dl names) (s, content)
          = ms.foldl (imgStep dl names) (imgStep dl names (s, content) (alt, url))) := by
  refine ⟨?_, ?_, fun ms => rfl⟩
  · show (occStep dl names s url, contentAfter dl names s content alt url) = _
    rw [occStep_miss_fail dl names s url hlocal hhttp hreg hfail,
        contentAfter_miss_fail dl names s content alt url hlocal hhttp hreg hfail]
  · show (occStep dlOk names s url, contentAfter dlOk names s content alt url) = _
    rw [occStep_miss_ok dlOk names s url hlocal hhttp hreg hok,
        contentAfter_miss_ok dlOk names s content alt url hlocal hhttp hreg hok]

/-- **C8** (witness). -/
theorem C8_download_failure_witness :
    imgStep (fun _ => false) (fun _ => "img".toList)
        (initOccState, "![a](https://x/y.png)".toList)
        ("a".toList, "https://x/y.png".toList)
      = ({ initOccState with
            imgCount := initOccState.imgCount + 1,
            counter := initOccState.counter + 1,
            attempts := ("https://x/y.png".toList, false) :: initOccState.attempts,
            failed := initOccState.failed + 1 }, "![a](https://x/y.png)".toList)
    ∧ imgStep (fun _ => true) (fun _ => "img".toList)
        (initOccState, "![a](https://x/y.png)".toList)
        ("a".toList, "https://x/y.png".toList)
      = ({ initOccState with
            imgCount := initOccState.imgCount + 1,
            counter := initOccState.counter + 1,
            attempts := ("https://x/y.png".toList, true) :: initOccState.attempts,
            success := initOccState.success + 1,
            registry := ("https://x/y.png".toList, (fun _ : Nat => "img".toList)
              initOccState.counter ++ get_image_extension "https://x/y.png".toList
                pngExt) :: initOccState.registry,
            media := ("https://x/y.png".toList, (fun _ : Nat => "img".toList)
              initOccState.counter ++ get_image_extension "https://x/y.png".toList
                pngExt) :: initOccState.media,
            rewrites := ("https://x/y.png".toList, (fun _ : Nat => "img".toList)
              initOccState.counter ++ get_image_extension "https://x/y.png".toList
                pngExt) :: initOccState.rewrites },
         rewriteContent "![a](https://x/y.png)".toList "a".toList
           "https://x/y.png".toList ((fun _ : Nat => "img".toList)
             initOccState.counter ++ get_image_extension "https://x/y.png".toList
               pngExt)) := by
  have h := C8_download_failure (fun _ => false) (fun _ => true)
    (fun _ => "img".toList) initOccState "a".toList "https://x/y.png".toList
    "![a](https://x/y.png)".toList (by decide) (by decide) rfl rfl rfl
  exact ⟨h.1, h.2.1⟩

/-! ## Idempotence of the image pass on already-local references (C2) -/

theorem foldl_imgStep_all_local (dl : List Char → Bool) (names : Nat → List Char)
    (ms : List (List Char × List Char)) :
    ∀ (s : OccState) (c : List Char), (∀ m ∈ ms, isLocalUrl m.2 = true) →
      ms.foldl (imgStep dl names) (s, c)
        = ({ s with imgCount := s.imgCount + ms.length }, c) := by
  induction ms with
  | nil => intro s c _; simp
  | cons m ms ih =>
    intro s c h
    rw [List.foldl_cons]
    have hm : isLocalUrl m.2 = true := h m (List.mem_cons_self m ms)
    have hstep : imgStep dl names (s, c) m
        = ({ s with imgCount := s.imgCount + 1 }, c) := by
      show (occStep dl names s m.2, contentAfter dl names s c m.1 m.2) = _
      rw [occStep_local dl names s m.2 hm,
          contentAfter_local dl names s c m.1 m.2 hm]
    rw [hstep, ih _ _ (fun m' hm' => h m' (List.mem_cons_of_mem m hm'))]
    show ({ s with imgCount := s.imgCount + 1 + ms.length }, c)
      = ({ s with imgCount := s.imgCount + (m :: ms).length }, c)
    rw [show s.imgCount + 1 + ms.length = s.imgCount + (m :: ms).length by
      simp only [List.length_cons]; omega]

theorem processFiles_all_local (dl : List Char → Bool) (names : Nat → List Char) :
    ∀ (files : List (List Char × List Char)) (s : OccState),
      (∀ f ∈ files, ∀ m ∈ findImages f.2, isLocalUrl m.2 = true) →
      processFiles dl names s files
        = ({ s with imgCount := s.imgCount + (allUrls files).length }, files) := by
  intro files
  induction files with
  | nil => intro s _; simp [processFiles, allUrls]
  | cons f fs ih =>
    intro s h
    rw [processFiles]
    have hf : processFile dl names s f
        = ({ s with imgCount := s.imgCount + (findImages f.2).length }, f) := by
      unfold processFile
      rw [foldl_imgStep_all_local dl names _ s f.2 (h f (List.mem_cons_self f fs))]
    rw [hf, ih _ (fun f' hf' => h f' (List.mem_cons_of_mem f hf'))]
    show ({ s with imgCount := s.imgCount + (findImages f.2).length
              + (allUrls fs).length }, f :: fs)
      = ({ s with imgCount := s.imgCount + (allUrls (f :: fs)).length }, f :: fs)
    rw [show s.imgCount + (findImages f.2).length + (allUrls fs).length
        = s.imgCount + (allUrls (f :: fs)).length by
      rw [allUrls]
      simp only [fileUrls, List.length_append, List.length_map]
      omega]

/-- **C2**: on a series directory in which every image reference of every
`.md` file already begins with `media/` or `./media/`, a run of
`process_images_in_series` performs zero downloads (no download attempt at
all, zero successes, zero failures) and leaves the content of every `.md`
file unchanged. -/
theorem C2_second_run_noop (dl : List Char → Bool) (names : Nat → List Char)
    (files : List (List Char × List Char))
    (h : ∀ f ∈ files, ∀ m ∈ findImages f.2, isLocalUrl m.2 = true) :
    (process_images_in_series dl names (some files)).1.download_success = 0
    ∧ (process_images_in_series dl names (some files)).1.download_failed = 0
    ∧ (process_images_in_series dl names (some files)).2.2.attempts = []
    ∧ (process_images_in_series dl names (some files)).2.1 = files := by
  have hpf := processFiles_all_local dl names files initOccState h
  refine ⟨?_, ?_, ?_, ?_⟩
  · show (processFiles dl names initOccState files).1.success = 0
    rw [hpf]
    rfl
  · show (processFiles dl names initOccState files).1.failed = 0
    rw [hpf]
    rfl
  · show (processFiles dl names initOccState files).1.attempts = []
    rw [hpf]
    rfl
  · show (processFiles dl names initOccState files).2 = files
    rw [hpf]

/-- **C2** (witness): a two-file directory whose references are all local. -/
theorem C2_second_run_noop_witness :
    (process_images_in_series (fun _ => true) (fun _ => "img".toList)
      (some [("a.md".toList, "x ![p](media/u.png) y".toList),
             ("b.md".toList, "![q](./media/v.jpg)".toList)])).1.download_success = 0
    ∧ (process_images_in_series (fun _ => true) (fun _ => "img".toList)
      (some [("a.md".toList, "x ![p](media/u.png) y".toList),
             ("b.md".toList, "![q](./media/v.jpg)".toList)])).1.download_failed = 0
    ∧ (process_images_in_series (fun _ => true) (fun _ => "img".toList)
      (some [("a.md".toList, "x ![p](media/u.png) y".toList),
             ("b.md".toList, "![q](./media/v.jpg)".toList)])).2.2.attempts = []
    ∧ (process_images_in_series (fun _ => true) (fun _ => "img".toList)
      (some [("a.md".toList, "x ![p](media/u.png) y".toList),
             ("b.md".toList, "![q](./media/v.jpg)".toList)])).2.1
      = [("a.md".toList, "x ![p](media/u.png) y".toList),
         ("b.md".toList, "![q](./media/v.jpg)".toList)] :=
  C2_second_run_noop (fun _ => true) (fun _ => "img".toList)
    [("a.md".toList, "x ![p](media/u.png) y".toList),
     ("b.md".toList, "![q](./media/v.jpg)".toList)] (by decide)

/-! ## Deduplication invariants (C1) -/

theorem occStep_registry_mono (dl : List Char → Bool) (names : Nat → List Char)
    (s : OccState) (url u fn : List Char)
    (h : alookup s.registry u = some fn) :
    alookup (occStep dl names s url).registry u = some fn := by
  cases h1 : isLocalUrl url with
  | true => rw [occStep_local dl names s url h1]; exact h
  | false =>
    cases h2 : isHttpUrl url with
    | false => rw [occStep_nonhttp dl names s url h1 h2]; exact h
    | true =>
      cases h3 : alookup s.registry url with
      | some fn' => rw [occStep_hit dl names s url fn' h1 h2 h3]; exact h
      | none =>
        cases h4 : dl url with
        | false => rw [occStep_miss_fail dl names s url h1 h2 h3 h4]; exact h
        | true =>
          rw [occStep_miss_ok dl names s url h1 h2 h3 h4]
          show alookup ((url, names s.counter ++ get_image_extension url pngExt)
            :: s.registry) u = some fn
          rw [alookup_cons]
          by_cases hu : url = u
          · subst hu
            rw [h3] at h
            cases h
          · rw [if_neg hu]
            exact h

theorem run_registry_mono (dl : List Char → Bool) (names : Nat → List Char) :
    ∀ (urls : List (List Char)) (s : OccState) (u fn : List Char),
      alookup s.registry u = some fn →
      alookup (urls.foldl (occStep dl names) s).registry u = some fn := by
  intro urls
  induction urls with
  | nil => intro s u fn h; exact h
  | cons url urls ih =>
    intro s u fn h
    rw [List.foldl_cons]
    exact ih _ _ _ (occStep_registry_mono dl names s url u fn h)

theorem run_registered (dl : List Char → Bool) (names : Nat → List Char)
    (u : List Char) (hlu : isLocalUrl u = false) (hhu : isHttpUrl u = true)
    (hdl : dl u = true) :
    ∀ (urls : List (List Char)) (s : OccState), u ∈ urls →
      ∃ fn, alookup (urls.foldl (occStep dl names) s).registry u = some fn := by
  intro urls
  induction urls with
  | nil => intro s h; cases h
  | cons url urls ih =>
    intro s hmem
    rw [List.foldl_cons]
    rcases List.mem_cons.mp hmem with hhead | htail
    · subst hhead
      have hstep : ∃ fn, alookup (occStep dl names s u).registry u = some fn := by
        cases h3 : alookup s.registry u with
        | some fn =>
          exact ⟨fn, occStep_registry_mono dl names s u u fn h3⟩
        | none =>
          rw [occStep_miss_ok dl names s u hlu hhu h3 hdl]
          refine ⟨names s.counter ++ get_image_extension u pngExt, ?_⟩
          show alookup ((u, names s.counter ++ get_image_extension u pngExt)
            :: s.registry) u = _
          rw [alookup_cons, if_pos rfl]
      rcases hstep with ⟨fn, hfn⟩
      exact ⟨fn, run_registry_mono dl names urls _ u fn hfn⟩
    · exact ih _ htail

theorem occStep_inv (dl : List Char → Bool) (names : Nat → List Char)
    (s : OccState) (url : List Char)
    (hA : ∀ u, (alookup s.registry u = none →
            countSuccAttempts u s.attempts = 0 ∧ countKey u s.media = 0)
         ∧ (∀ fn, alookup s.registry u = some fn →
            dl u = true ∧ countSuccAttempts u s.attempts = 1
              ∧ countKey u s.media = 1)) :
    ∀ u, (alookup (occStep dl names s url).registry u = none →
        countSuccAttempts u (occStep dl names s url).attempts = 0
          ∧ countKey u (occStep dl names s url).media = 0)
     ∧ (∀ fn, alookup (occStep dl names s url).registry u = some fn →
        dl u = true ∧ countSuccAttempts u (occStep dl names s url).attempts = 1
          ∧ countKey u (occStep dl names s url).media = 1) := by
  intro u
  cases h1 : isLocalUrl url with
  | true => rw [occStep_local dl names s url h1]; exact hA u
  | false =>
    cases h2 : isHttpUrl url with
    | false => rw [occStep_nonhttp dl names s url h1 h2]; exact hA u
    | true =>
      cases h3 : alookup s.registry url with
      | some fn' => rw [occStep_hit dl names s url fn' h1 h2 h3]; exact hA u
      | none =>
        cases h4 : dl url with
        | false =>
          rw [occStep_miss_fail dl names s url h1 h2 h3 h4]
          constructor
          · intro hnone
            have h5 := (hA u).1 hnone
            show (if url = u ∧ false = true then 1 else 0)
              + countSuccAttempts u s.attempts = 0 ∧ countKey u s.media = 0
            rw [if_neg (by simp)]
            exact ⟨by omega, h5.2⟩
          · intro fn hsome
            have h5 := (hA u).2 fn hsome
            show dl u = true ∧ (if url = u ∧ false = true then 1 else 0)
              + countSuccAttempts u s.attempts = 1 ∧ countKey u s.media = 1
            rw [if_neg (by simp)]
            exact ⟨h5.1, by omega, h5.2.2⟩
        | true =>
          rw [occStep_miss_ok dl names s url h1 h2 h3 h4]
          constructor
          · intro hnone
            show (if url = u ∧ true = true then 1 else 0)
              + countSuccAttempts u s.attempts = 0
              ∧ (if url = u then 1 else 0) + countKey u s.media = 0
            have hnone' : (if url = u
                then some (names s.counter ++ get_image_extension url pngExt)
                else alookup s.registry u) = none := hnone
            by_cases hu : url = u
            · rw [if_pos hu] at hnone'
              cases hnone'
            · rw [if_neg hu] at hnone'
              have h5 := (hA u).1 hnone'
              rw [if_neg (by simp [hu]), if_neg hu]
              exact ⟨by omega, by omega⟩
          · intro fn hsome
            show dl u = true ∧ (if url = u ∧ true = true then 1 else 0)
              + countSuccAttempts u s.attempts = 1
              ∧ (if url = u then 1 else 0) + countKey u s.media = 1
            have hsome' : (if url = u
                then some (names s.counter ++ get_image_extension url pngExt)
                else alookup s.registry u) = some fn := hsome
            by_cases hu : url = u
            · subst hu
              have h5 := (hA url).1 h3
              rw [if_pos ⟨rfl, rfl⟩, if_pos rfl]
              exact ⟨h4, by omega, by omega⟩
            · rw [if_neg hu] at hsome'
              have h5 := (hA u).2 fn hsome'
              rw [if_neg (by simp [hu]), if_neg hu]
              exact ⟨h5.1, by omega, by omega⟩

theorem run_inv (dl : List Char → Bool) (names : Nat → List Char) :
    ∀ (urls : List (List Char)) (s : OccState),
      (∀ u, (alookup s.registry u = none →
              countSuccAttempts u s.attempts = 0 ∧ countKey u s.media = 0)
           ∧ (∀ fn, alookup s.registry u = some fn →
              dl u = true ∧ countSuccAttempts u s.attempts = 1
                ∧ countKey u s.media = 1)) →
      ∀ u, (alookup (urls.foldl (occStep dl names) s).registry u = none →
          countSuccAttempts u (urls.foldl (occStep dl names) s).attempts = 0
            ∧ countKey u (urls.foldl (occStep dl names) s).media = 0)
       ∧ (∀ fn, alookup (urls.foldl (occStep dl names) s).registry u = some fn →
          dl u = true
            ∧ countSuccAttempts u (urls.foldl (occStep dl names) s).attempts = 1
            ∧ countKey u (urls.foldl (occStep dl names) s).media = 1) := by
  intro urls
  induction urls with
  | nil => intro s hA; exact hA
  | cons url urls ih =>
    intro s hA
    rw [List.foldl_cons]
    exact ih _ (occStep_inv dl names s url hA)

theorem occStep_rewrites_registered (dl : List Char → Bool)
    (names : Nat → List Char) (s : OccState) (url : List Char)
    (hB : ∀ u fn, (u, fn) ∈ s.rewrites → alookup s.registry u = some fn) :
    ∀ u fn, (u, fn) ∈ (occStep dl names s url).rewrites →
      alookup (occStep dl names s url).registry u = some fn := by
  intro u fn hmem
  cases h1 : isLocalUrl url with
  | true =>
    rw [occStep_local dl names s url h1] at hmem ⊢
    exact hB u fn hmem
  | false =>
    cases h2 : isHttpUrl url with
    | false =>
      rw [occStep_nonhttp dl names s url h1 h2] at hmem ⊢
      exact hB u fn hmem
    | true =>
      cases h3 : alookup s.registry url with
      | some fn' =>
        rw [occStep_hit dl names s url fn' h1 h2 h3] at hmem ⊢
        have hmem' : (u, fn) ∈ (url, fn') :: s.rewrites := hmem
        rcases List.mem_cons.mp hmem' with hhead | htail
        · injection hhead with hu hfn
          subst hu
          subst hfn
          exact h3
        · exact hB u fn htail
      | none =>
        cases h4 : dl url with
        | false =>
          rw [occStep_miss_fail dl names s url h1 h2 h3 h4] at hmem ⊢
          exact hB u fn hmem
        | true =>
          rw [occStep_miss_ok dl names s url h1 h2 h3 h4] at hmem ⊢
          have hmem' : (u, fn) ∈ (url, names s.counter
              ++ get_image_extension url pngExt) :: s.rewrites := hmem
          show alookup ((url, names s.counter ++ get_image_extension url pngExt)
            :: s.registry) u = some fn
          rw [alookup_cons]
          rcases List.mem_cons.mp hmem' with hhead | htail
          · injection hhead with hu hfn
            subst hu
            subst hfn
            rw [if_pos rfl]
          · have h6 := hB u fn htail
            by_cases hu : url = u
            · subst hu
              rw [h3] at h6
              cases h6
            · rw [if_neg hu]
              exact h6

theorem run_rewrites_registered (dl : List Char → Bool)
    (names : Nat → List Char) :
    ∀ (urls : List (List Char)) (s : OccState),
      (∀ u fn, (u, fn) ∈ s.rewrites → alookup s.registry u = some fn) →
      ∀ u fn, (u, fn) ∈ (urls.foldl (occStep dl names) s).rewrites →
        alookup (urls.foldl (occStep dl names) s).registry u = some fn := by
  intro urls
  induction urls with
  | nil => intro s hB; exact hB
  | cons url urls ih =>
    intro s hB
    rw [List.foldl_cons]
    exact ih _ (occStep_rewrites_registered dl names s url hB)

theorem occStep_rewrites_count (dl : List Char → Bool) (names : Nat → List Char)
    (s : OccState) (url u : List Char) (hlu : isLocalUrl u = false)
    (hhu : isHttpUrl u = true) (hdl : dl u = true) :
    countKey u (occStep dl names s url).rewrites
      = countKey u s.rewrites + (if url = u then 1 else 0) := by
  by_cases hu : url = u
  · subst hu
    rw [if_pos rfl]
    cases h3 : alookup s.registry url with
    | some fn =>
      rw [occStep_hit dl names s url fn hlu hhu h3]
      show (if url = url then 1 else 0) + countKey url s.rewrites = _
      rw [if_pos rfl]
      omega
    | none =>
      rw [occStep_miss_ok dl names s url hlu hhu h3 hdl]
      show (if url = url then 1 else 0) + countKey url s.rewrites = _
      rw [if_pos rfl]
      omega
  · rw [if_neg hu]
    cases h1 : isLocalUrl url with
    | true =>
      rw [occStep_local dl names s url h1]
      show countKey u s.rewrites = countKey u s.rewrites + 0
      omega
    | false =>
      cases h2 : isHttpUrl url with
      | false =>
        rw [occStep_nonhttp dl names s url h1 h2]
        show countKey u s.rewrites = countKey u s.rewrites + 0
        omega
      | true =>
        cases h3 : alookup s.registry url with
        | some fn =>
          rw [occStep_hit dl names s url fn h1 h2 h3]
          show (if url = u then 1 else 0) + countKey u s.rewrites
            = countKey u s.rewrites + 0
          rw [if_neg hu]
          omega
        | none =>
          cases h4 : dl url with
          | false =>
            rw [occStep_miss_fail dl names s url h1 h2 h3 h4]
            show countKey u s.rewrites = countKey u s.rewrites + 0
            omega
          | true =>
            rw [occStep_miss_ok dl names s url h1 h2 h3 h4]
            show (if url = u then 1 else 0) + countKey u s.rewrites
              = countKey u s.rewrites + 0
            rw [if_neg hu]
            omega

theorem run_rewrites_count (dl : List Char → Bool) (names : Nat → List Char)
    (u : List Char) (hlu : isLocalUrl u = false) (hhu : isHttpUrl u = true)
    (hdl : dl u = true) :
    ∀ (urls : List (List Char)) (s : OccState),
      countKey u (urls.foldl (occStep dl names) s).rewrites
        = countKey u s.rewrites + countOcc u urls := by
  intro urls
  induction urls with
  | nil => intro s; simp [countOcc]
  | cons url urls ih =>
    intro s
    rw [List.foldl_cons, ih, occStep_rewrites_count dl names s url u hlu hhu hdl,
        countOcc_cons]
    omega

/-- **C1**: within one `process_images_in_series` run, every URL is
successfully downloaded at most once and written under `media/` at most once
(count over the run's download attempts and media writes); any two reference
rewrites of the same URL use the same local filename; and a remote URL `u`
that the downloader accepts and that occurs in the series' documents is
downloaded exactly once while being rewritten once per occurrence — `N`
occurrences across the documents give one download and `N` rewrites. -/
theorem C1_dedup_invariant (dl : List Char → Bool) (names : Nat → List Char)
    (files : List (List Char × List Char)) (u w v f1 f2 : List Char)
    (hlu : isLocalUrl u = false) (hhu : isHttpUrl u = true)
    (hdl : dl u = true) (hmem : u ∈ allUrls files)
    (hw1 : (v, f1) ∈ (process_images_in_series dl names (some files)).2.2.rewrites)
    (hw2 : (v, f2) ∈ (process_images_in_series dl names (some files)).2.2.rewrites) :
    countSuccAttempts w
        (process_images_in_series dl names (some files)).2.2.attempts ≤ 1
    ∧ countKey w (process_images_in_series dl names (some files)).2.2.media ≤ 1
    ∧ f1 = f2
    ∧ countSuccAttempts u
        (process_images_in_series dl names (some files)).2.2.attempts = 1
    ∧ countKey u (process_images_in_series dl names (some files)).2.2.rewrites
        = countOcc u (allUrls files) := by
  rw [process_state_eq dl names files] at hw1 hw2 ⊢
  have hInit : ∀ x, (alookup initOccState.registry x = none →
        countSuccAttempts x initOccState.attempts = 0
          ∧ countKey x initOccState.media = 0)
      ∧ (∀ fn, alookup initOccState.registry x = some fn →
        dl x = true ∧ countSuccAttempts x initOccState.attempts = 1
          ∧ countKey x initOccState.media = 1) :=
    fun x => ⟨fun _ => ⟨rfl, rfl⟩, fun fn h => by cases h⟩
  have hA := run_inv dl names (allUrls files) initOccState hInit
  have hB := run_rewrites_registered dl names (allUrls files) initOccState
    (fun x fn h => by cases h)
  refine ⟨?_, ?_, ?_, ?_, ?_⟩
  · cases hr : alookup ((allUrls files).foldl (occStep dl names)
        initOccState).registry w with
    | none =>
      have h5 := (hA w).1 hr
      omega
    | some fn =>
      have h5 := (hA w).2 fn hr
      omega
  · cases hr : alookup ((allUrls files).foldl (occStep dl names)
        initOccState).registry w with
    | none =>
      have h5 := (hA w).1 hr
      omega
    | some fn =>
      have h5 := (hA w).2 fn hr
      omega
  · have e1 := hB v f1 hw1
    have e2 := hB v f2 hw2
    rw [e1] at e2
    injection e2 with e3
  · rcases run_registered dl names u hlu hhu hdl (allUrls files)
      initOccState hmem with ⟨fn, hfn⟩
    exact ((hA u).2 fn hfn).2.1
  · rw [run_rewrites_count dl names u hlu hhu hdl (allUrls files) initOccState]
    show (0 : Nat) + countOcc u (allUrls files) = countOcc u (allUrls files)
    omega

/-- **C1** (witness): the same remote URL in two documents — one download,
two rewrites, both to the same local name. -/
theorem C1_dedup_invariant_witness :
    countSuccAttempts "https://c/l.png".toList
        (process_images_in_series (fun _ => true) (fun _ => "img".toList)
          (some [("a.md".toList, "![x](https://c/l.png)".toList),
                 ("b.md".toList, "![y](https://c/l.png)".toList)])).2.2.attempts ≤ 1
    ∧ countKey "https://c/l.png".toList
        (process_images_in_series (fun _ => true) (fun _ => "img".toList)
          (some [("a.md".toList, "![x](https://c/l.png)".toList),
                 ("b.md".toList, "![y](https://c/l.png)".toList)])).2.2.media ≤ 1
    ∧ "img.png".toList = "img.png".toList
    ∧ countSuccAttempts "https://c/l.png".toList
        (process_images_in_series (fun _ => true) (fun _ => "img".toList)
          (some [("a.md".toList, "![x](https://c/l.png)".toList),
                 ("b.md".toList, "![y](https://c/l.png)".toList)])).2.2.attempts = 1
    ∧ countKey "https://c/l.png".toList
        (process_images_in_series (fun _ => true) (fun _ => "img".toList)
          (some [("a.md".toList, "![x](https://c/l.png)".toList),
                 ("b.md".toList, "![y](https://c/l.png)".toList)])).2.2.rewrites
        = countOcc "https://c/l.png".toList
            (allUrls [("a.md".toList, "![x](https://c/l.png)".toList),
                      ("b.md".toList, "![y](https://c/l.png)".toList)]) :=
  C1_dedup_invariant (fun _ => true) (fun _ => "img".toList)
    [("a.md".toList, "![x](https://c/l.png)".toList),
     ("b.md".toList, "![y](https://c/l.png)".toList)]
    "https://c/l.png".toList "https://c/l.png".toList "https://c/l.png".toList
    "img.png".toList "img.png".toList
    (by decide) (by decide) rfl (by decide) (by decide) (by decide)
